import Mathlib

/-!
Verification of the Pipass core (local_installer.py) against its design
specification.  The modules are embedded shallowly:

* character-level models of the two regular expressions used by the code
  (re.search of a literal phrase followed by a name token, and re.match of
  the Requires-Dist field);
* extract_dependencies_from_whl over an explicit archive datatype (the
  filesystem/zip content the function reads is passed in as data, and the
  points where the source can raise are part of that data);
* install_packages_locally as a fuel-structured recursion (fuel is the
  remaining loop iterations, max_retries minus attempt), together with an
  instrumented variant that records the terminal branch taken, the number
  of install invocations, the final downloaded set and the per-attempt
  retry-fetch targets.
-/

namespace Pipass

/-- The character class `[a-zA-Z0-9._-]` used by every name-token regex in
local_installer.py. -/
def isNameChar (c : Char) : Bool :=
  c.isAlpha || c.isDigit || c == '.' || c == '_' || c == '-'

/-- Match a literal string (as a character list) at the head of the input,
returning the remainder on success.  Models the literal part of a regex. -/
def matchLit : List Char → List Char → Option (List Char)
  | [], s => some s
  | _ :: _, [] => none
  | l :: ls, c :: cs => if c = l then matchLit ls cs else none

/-- Model of Python re.search for a pattern of the shape
literal-phrase followed by `([a-zA-Z0-9._-]+)`: try every start position
left to right; a position matches when the literal matches there and at
least one name character follows; the capture is the maximal run of name
characters (the + is greedy and name characters never overlap the
literal's tail, so no further backtracking arises).  Returns the capture
of the leftmost match.  The source then calls .strip() on the capture,
which is the identity here because name characters are never whitespace. -/
def searchCapture (phrase : List Char) : List Char → Option String
  | [] =>
    match matchLit phrase [] with
    | some rest =>
      let name := rest.takeWhile isNameChar
      if name.isEmpty then none else some (String.mk name)
    | none => none
  | c :: cs =>
    match matchLit phrase (c :: cs) with
    | some rest =>
      let name := rest.takeWhile isNameChar
      if name.isEmpty then searchCapture phrase cs else some (String.mk name)
    | none => searchCapture phrase cs

/-- Trigger phrase of pattern1 in parse_pip_error_for_missing_deps. -/
def phrase1 : List Char := "No matching distribution found for ".toList

/-- Trigger phrase of pattern2 in parse_pip_error_for_missing_deps. -/
def phrase2 : List Char := "Could not find a version that satisfies the requirement ".toList

/-- The line-boundary characters of Python str.splitlines: LF, CR,
vertical tab, form feed, the separators FS, GS, RS, NEL, and the Unicode
line and paragraph separators. -/
def isLineBreak (c : Char) : Bool :=
  c == '\n' || c == '\r' || c == '\x0b' || c == '\x0c' ||
  c == '\x1c' || c == '\x1d' || c == '\x1e' || c == '\x85' ||
  c == '\u2028' || c == '\u2029'

/-- Python str.splitlines: split at every line-boundary character, with
the pair CR LF consumed as a single boundary, not keeping the boundaries
and producing no trailing empty line. -/
def splitLinesAux : List Char → List Char → List (List Char)
  | [], acc => if acc.isEmpty then [] else [acc.reverse]
  | [c], acc =>
    if isLineBreak c then [acc.reverse]
    else [(c :: acc).reverse]
  | c :: c2 :: cs, acc =>
    if c == '\r' && c2 == '\n' then acc.reverse :: splitLinesAux cs []
    else if isLineBreak c then acc.reverse :: splitLinesAux (c2 :: cs) []
    else splitLinesAux (c2 :: cs) (c :: acc)

def splitLines (s : List Char) : List (List Char) := splitLinesAux s []

/-- One iteration of the line loop of parse_pip_error_for_missing_deps:
pattern1 is searched first and, when it matches, the loop continues to the
next line without consulting pattern2. -/
def parseLine (acc : Finset String) (line : List Char) : Finset String :=
  match searchCapture phrase1 line with
  | some name => insert name acc
  | none =>
    match searchCapture phrase2 line with
    | some name => insert name acc
    | none => acc

/-- parse_pip_error_for_missing_deps from local_installer.py. -/
def parse_pip_error_for_missing_deps (errorOutput : String) : Finset String :=
  (splitLines errorOutput.toList).foldl parseLine ∅

/-- Does the list end with the given suffix?  Models str.endswith. -/
def endsWith (suffix s : List Char) : Bool :=
  (matchLit suffix.reverse s.reverse).isSome

/-- One member of a wheel (zip) archive, as extract_dependencies_from_whl
observes it: its entry name, the text lines the UTF-8 reader yields, and
whether reading raises after those lines (a decode or I/O error partway
through the member; lines already decoded have been yielded by then). -/
structure ZipMember where
  name : String
  goodLines : List String
  readFails : Bool
deriving DecidableEq, Repr

/-- A wheel file as the function observes it: whether zipfile.ZipFile can
open it at all (false for a corrupt or missing file, in which case the
exception is raised before any dependency is accumulated), and its member
list in namelist() order. -/
structure WhlFile where
  openOk : Bool
  members : List ZipMember
deriving DecidableEq, Repr

/-- Model of re.match applied anchored at the start of a METADATA line
with pattern Requires-Dist: then optional whitespace then a captured
nonempty name-character run.  The whitespace class and the name class are
disjoint, so the greedy star never backtracks.  The source guards this
with line.startswith of the same literal, which the anchored literal match
subsumes. -/
def reMatchRequiresDist (line : String) : Option String :=
  match matchLit "Requires-Dist:".toList line.toList with
  | none => none
  | some rest =>
    let rest2 := rest.dropWhile (fun c => c.isWhitespace)
    let name := rest2.takeWhile isNameChar
    if name.isEmpty then none else some (String.mk name)

/-- The line loop of extract_dependencies_from_whl: fold the accumulated
dependency set over the lines the reader yields. -/
def collectDeps (acc : Finset String) : List String → Finset String
  | [] => acc
  | l :: ls =>
    match reMatchRequiresDist l with
    | some d => collectDeps (insert d acc) ls
    | none => collectDeps acc ls

/-- extract_dependencies_from_whl from local_installer.py.  Every raise
point of the source sits inside its try block and the except handler
falls through to return the dependencies accumulated so far: a failed
open yields the empty set, and a read failure partway through METADATA
yields exactly the dependencies of the lines already processed (the
readFails flag therefore does not change the returned value). -/
def extract_dependencies_from_whl (whl : WhlFile) : Finset String :=
  if whl.openOk then
    match whl.members.find? (fun m => endsWith ".dist-info/METADATA".toList m.name.toList) with
    | some m => collectDeps ∅ m.goodLines
    | none => ∅
  else ∅

/-- The terminal branch install_packages_locally takes, labelled after the
failure taxonomy of the specification.  The first five are the spec
reasons; installRaised labels the two except branches around
subprocess.run (FileNotFoundError and the catch-all), which the spec
taxonomy does not name. -/
inductive FailReason where
  | mainPackageUnavailable
  | unparseable
  | stalled
  | noDownloadProgress
  | maxAttemptsExceeded
  | installRaised
deriving DecidableEq, Repr

inductive RunResult where
  | success
  | failure (r : FailReason)
deriving DecidableEq, Repr

/-- Boolean view of a run outcome; the source function returns exactly
this boolean. -/
def RunResult.isSuccess : RunResult → Bool
  | .success => true
  | .failure _ => false

/-- The environment a run observes.  fetch_func and the filesystem are
modelled as pure maps: fetch sends a package name to the downloaded path
or the absence signal None; archive gives the wheel content at a path;
install gives the outcome of the pip subprocess of the k-th attempt
(1-based) as (returncode, stdout, stderr), or none when subprocess.run
itself raises.  maxRetries is the max_retries parameter. -/
structure Env where
  mainName : String
  fetch : String → Option String
  archive : String → WhlFile
  install : Nat → Option (Int × String × String)
  maxRetries : Nat

/-- Everything observable about one run: the terminal branch, how many
times the install capability was invoked, the final downloaded_packages
set, and the value of newly_identified_deps at each failed attempt that
reached the download phase (the names passed to fetch_func inside the
retry loop, in attempt order). -/
structure RunTrace where
  result : RunResult
  installCalls : Nat
  downloaded : Finset String
  retryFetched : List (Finset String)
deriving DecidableEq

/-- The download phase of one loop iteration: iterating fetch_func over
the set newly_identified_deps adds exactly the names whose fetch
succeeded, and download_success_count is the number of those names.  With
fetch a pure map and the iterated names distinct, the order Python
happens to iterate the set in affects neither the resulting set nor the
count, so the phase is rendered as a filter (whose card is the count). -/
def fetchedOf (e : Env) (newDeps : Finset String) : Finset String :=
  newDeps.filter (fun d => (e.fetch d).isSome)

/-- The while loop of install_packages_locally, instrumented.  fuel is
max_retries minus attempt, so the loop guard attempt < max_retries is
fuel > 0; attempt is the number of install invocations already made.
In the source's locals: parse_pip_error_for_missing_deps stderr is
missing_deps, its difference with downloaded is newly_identified_deps,
and the test on card 0 is download_success_count == 0 (guarded by the
emptiness test just before, exactly as the conjunction on line 222 of
the source is). -/

def runLoop (e : Env) (downloaded : Finset String) (attempt fuel : Nat)
    (trace : List (Finset String)) : RunTrace :=
  match fuel with
  | 0 => ⟨.failure .maxAttemptsExceeded, attempt, downloaded, trace⟩
  | fuel + 1 =>
    match e.install (attempt + 1) with
    | none => ⟨.failure .installRaised, attempt + 1, downloaded, trace⟩
    | some (rc, _stdout, stderr) =>
      if rc = 0 then ⟨.success, attempt + 1, downloaded, trace⟩
      else if parse_pip_error_for_missing_deps stderr = ∅ then
        ⟨.failure .unparseable, attempt + 1, downloaded, trace⟩
      else if parse_pip_error_for_missing_deps stderr \ downloaded = ∅ then
        ⟨.failure .stalled, attempt + 1, downloaded, trace⟩
      else if (fetchedOf e (parse_pip_error_for_missing_deps stderr \ downloaded)).card = 0 then
        ⟨.failure .noDownloadProgress, attempt + 1,
          downloaded ∪ fetchedOf e (parse_pip_error_for_missing_deps stderr \ downloaded),
          trace ++ [parse_pip_error_for_missing_deps stderr \ downloaded]⟩
      else
        runLoop e (downloaded ∪ fetchedOf e (parse_pip_error_for_missing_deps stderr \ downloaded))
          (attempt + 1) fuel (trace ++ [parse_pip_error_for_missing_deps stderr \ downloaded])

/-- install_packages_locally from local_installer.py, instrumented with
the observables of RunTrace.  The seed phase adds the main name, then
fetches each declared dependency not already recorded and adds the ones
whose fetch succeeded; as in the loop, the per-element set iteration is
order-independent and rendered as a filter. -/
def run (e : Env) : RunTrace :=
  match e.fetch e.mainName with
  | none => ⟨.failure .mainPackageUnavailable, 0, ∅, []⟩
  | some mainPath =>
    let d0 : Finset String := {e.mainName}
    let initialDeps := extract_dependencies_from_whl (e.archive mainPath)
    let seeded := d0 ∪ initialDeps.filter (fun d => d ∉ d0 ∧ (e.fetch d).isSome)
    runLoop e seeded 0 e.maxRetries []

/-- The while loop of install_packages_locally as written: every break
and the loop exit leave installed_successfully false; only
returncode = 0 sets it true.  A direct translation, without the
instrumentation of runLoop. -/
def installLoop (e : Env) (downloaded : Finset String) (attempt fuel : Nat) : Bool :=
  match fuel with
  | 0 => false
  | fuel + 1 =>
    match e.install (attempt + 1) with
    | none => false
    | some (rc, _stdout, stderr) =>
      if rc = 0 then true
      else if parse_pip_error_for_missing_deps stderr = ∅ then false
      else if parse_pip_error_for_missing_deps stderr \ downloaded = ∅ then false
      else if (fetchedOf e (parse_pip_error_for_missing_deps stderr \ downloaded)).card = 0 then false
      else
        installLoop e (downloaded ∪ fetchedOf e (parse_pip_error_for_missing_deps stderr \ downloaded))
          (attempt + 1) fuel

/-- install_packages_locally from local_installer.py: the value the
caller receives is only this boolean. -/
def install_packages_locally (e : Env) : Bool :=
  match e.fetch e.mainName with
  | none => false
  | some mainPath =>
    let d0 : Finset String := {e.mainName}
    let initialDeps := extract_dependencies_from_whl (e.archive mainPath)
    let seeded := d0 ∪ initialDeps.filter (fun d => d ∉ d0 ∧ (e.fetch d).isSome)
    installLoop e seeded 0 e.maxRetries

/-- The downloaded set after the seed phase of a run whose main fetch
returned mainPath: the main name plus every declared dependency of the
main archive whose fetch succeeded. -/
def seededSet (e : Env) (mainPath : String) : Finset String :=
  {e.mainName} ∪
    (extract_dependencies_from_whl (e.archive mainPath)).filter
      (fun d => d ∉ ({e.mainName} : Finset String) ∧ (e.fetch d).isSome)

/-- A line of install stderr on which both recognizer phrases occur. -/
def bothPhrasesLine : String :=
  "No matching distribution found for aaa Could not find a version that satisfies the requirement bbb"

/-- A stderr line on which only the second recognizer phrase occurs. -/
def requirementOnlyLine : String :=
  "ERROR: Could not find a version that satisfies the requirement zz"

/-- Install stderr in which no recognizer phrase occurs. -/
def unrecognizableText : String := "pip failed: exit status 1"

/-- Environment whose fetch capability reports absence for every name,
the main package included. -/
def envMainAbsent : Env :=
  ⟨"a", fun _ => none, fun _ => ⟨true, []⟩, fun _ => none, 5⟩

/-- Environment in which every fetch succeeds and every install attempt
fails reporting only the main package name itself as missing: the first
parsed set is already contained in the downloaded set. -/
def envSingleStalled : Env :=
  ⟨"a", fun n => some ("/d/" ++ n),
    fun _ => ⟨true, []⟩,
    fun _ => some (1, "", "No matching distribution found for a"), 5⟩

/-- Environment in which every fetch succeeds and every install attempt
fails reporting the same single missing name x. -/
def envRepeatSameMissing : Env :=
  ⟨"a", fun n => some ("/d/" ++ n),
    fun _ => ⟨true, []⟩,
    fun _ => some (1, "", "No matching distribution found for x"), 5⟩

/-- Environment in which the fetch of b always fails while every other
fetch succeeds; the first install attempt reports b and c missing and
the second reports b again. -/
def envFailedFetchRetry : Env :=
  ⟨"a", fun n => if n = "b" then none else some ("/d/" ++ n),
    fun _ => ⟨true, []⟩,
    fun k =>
      if k = 1 then
        some (1, "", "No matching distribution found for b\nNo matching distribution found for c")
      else some (1, "", "No matching distribution found for b"), 5⟩

/-- A wheel archive whose METADATA reader yields one Requires-Dist line
and then raises (for instance a UTF-8 decode error in a later chunk of
the member): the exception fires after the first dependency has been
accumulated. -/
def whlPartialRead : WhlFile :=
  ⟨true, [⟨"p-1.0.dist-info/METADATA", ["Requires-Dist: foo (>=1.0,<2)"], true⟩]⟩

/-- A wheel archive whose METADATA declares a single versioned
dependency and whose read completes normally. -/
def whlFooDep : WhlFile :=
  ⟨true, [⟨"x-1.0.dist-info/METADATA", ["Requires-Dist: foo (>=1.0,<2)"], false⟩]⟩

theorem run_eq_seeded (e : Env) (mainPath : String)
    (h : e.fetch e.mainName = some mainPath) :
    run e = runLoop e (seededSet e mainPath) 0 e.maxRetries [] := by
  simp only [run, h, seededSet]

theorem install_eq_seeded (e : Env) (mainPath : String)
    (h : e.fetch e.mainName = some mainPath) :
    install_packages_locally e = installLoop e (seededSet e mainPath) 0 e.maxRetries := by
  simp only [install_packages_locally, h, seededSet]

/-- Case-analysis and induction principle for runLoop: one obligation per
terminal branch of the loop (fuel exhausted, subprocess raise, success,
unparseable, stalled, no download progress) and one for the iteration
that continues.  All later lemmas about the loop instantiate this. -/
theorem runLoop_ind (e : Env)
    (P : Finset String → Nat → Nat → List (Finset String) → RunTrace → Prop)
    (hfuel : ∀ d a t, P d a 0 t ⟨.failure .maxAttemptsExceeded, a, d, t⟩)
    (hraise : ∀ d a f t, e.install (a + 1) = none →
      P d a (f + 1) t ⟨.failure .installRaised, a + 1, d, t⟩)
    (hsucc : ∀ d a f t rc out err, e.install (a + 1) = some (rc, out, err) → rc = 0 →
      P d a (f + 1) t ⟨.success, a + 1, d, t⟩)
    (hunp : ∀ d a f t rc out err, e.install (a + 1) = some (rc, out, err) → rc ≠ 0 →
      parse_pip_error_for_missing_deps err = ∅ →
      P d a (f + 1) t ⟨.failure .unparseable, a + 1, d, t⟩)
    (hstall : ∀ d a f t rc out err, e.install (a + 1) = some (rc, out, err) → rc ≠ 0 →
      parse_pip_error_for_missing_deps err ≠ ∅ →
      parse_pip_error_for_missing_deps err \ d = ∅ →
      P d a (f + 1) t ⟨.failure .stalled, a + 1, d, t⟩)
    (hnodl : ∀ d a f t rc out err, e.install (a + 1) = some (rc, out, err) → rc ≠ 0 →
      parse_pip_error_for_missing_deps err ≠ ∅ →
      parse_pip_error_for_missing_deps err \ d ≠ ∅ →
      (fetchedOf e (parse_pip_error_for_missing_deps err \ d)).card = 0 →
      P d a (f + 1) t ⟨.failure .noDownloadProgress, a + 1,
        d ∪ fetchedOf e (parse_pip_error_for_missing_deps err \ d),
        t ++ [parse_pip_error_for_missing_deps err \ d]⟩)
    (hrec : ∀ d a f t rc out err, e.install (a + 1) = some (rc, out, err) → rc ≠ 0 →
      parse_pip_error_for_missing_deps err ≠ ∅ →
      parse_pip_error_for_missing_deps err \ d ≠ ∅ →
      (fetchedOf e (parse_pip_error_for_missing_deps err \ d)).card ≠ 0 →
      P (d ∪ fetchedOf e (parse_pip_error_for_missing_deps err \ d)) (a + 1) f
        (t ++ [parse_pip_error_for_missing_deps err \ d])
        (runLoop e (d ∪ fetchedOf e (parse_pip_error_for_missing_deps err \ d)) (a + 1) f
          (t ++ [parse_pip_error_for_missing_deps err \ d])) →
      P d a (f + 1) t
        (runLoop e (d ∪ fetchedOf e (parse_pip_error_for_missing_deps err \ d)) (a + 1) f
          (t ++ [parse_pip_error_for_missing_deps err \ d]))) :
    ∀ (fuel : Nat) (d : Finset String) (a : Nat) (t : List (Finset String)),
      P d a fuel t (runLoop e d a fuel t) := by
  intro fuel
  induction fuel with
  | zero => intro d a t; rw [runLoop]; exact hfuel d a t
  | succ f ih =>
    intro d a t
    rw [runLoop]
    cases h1 : e.install (a + 1) with
    | none => exact hraise d a f t h1
    | some v =>
      obtain ⟨rc, out, err⟩ := v
      dsimp only
      by_cases h2 : rc = 0
      · rw [if_pos h2]; exact hsucc d a f t rc out err h1 h2
      · rw [if_neg h2]
        by_cases h3 : parse_pip_error_for_missing_deps err = ∅
        · rw [if_pos h3]; exact hunp d a f t rc out err h1 h2 h3
        · rw [if_neg h3]
          by_cases h4 : parse_pip_error_for_missing_deps err \ d = ∅
          · rw [if_pos h4]; exact hstall d a f t rc out err h1 h2 h3 h4
          · rw [if_neg h4]
            by_cases h5 : (fetchedOf e (parse_pip_error_for_missing_deps err \ d)).card = 0
            · rw [if_pos h5]; exact hnodl d a f t rc out err h1 h2 h3 h4 h5
            · rw [if_neg h5]
              exact hrec d a f t rc out err h1 h2 h3 h4 h5 (ih _ _ _)

/-- The loop makes at most one install invocation per unit of fuel. -/
theorem runLoop_installCalls_le (e : Env) (fuel : Nat) (d : Finset String) (a : Nat)
    (t : List (Finset String)) : (runLoop e d a fuel t).installCalls ≤ a + fuel := by
  refine runLoop_ind e (fun d a fuel t r => r.installCalls ≤ a + fuel)
    ?_ ?_ ?_ ?_ ?_ ?_ ?_ fuel d a t <;> intros <;> (try dsimp only) <;> omega

/-- The instrumented loop and the boolean loop of the source take the
same branches: the boolean the source returns is the success bit of the
instrumented outcome. -/
theorem runLoop_isSuccess (e : Env) (fuel : Nat) (d : Finset String) (a : Nat)
    (t : List (Finset String)) :
    (runLoop e d a fuel t).result.isSuccess = installLoop e d a fuel := by
  refine runLoop_ind e (fun d a fuel t r => r.result.isSuccess = installLoop e d a fuel)
    ?_ ?_ ?_ ?_ ?_ ?_ ?_ fuel d a t
  · intro d a t; simp [installLoop, RunResult.isSuccess]
  · intro d a f t h1; simp [installLoop, h1, RunResult.isSuccess]
  · intro d a f t rc out err h1 h2; simp [installLoop, h1, h2, RunResult.isSuccess]
  · intro d a f t rc out err h1 h2 h3; simp [installLoop, h1, h2, h3, RunResult.isSuccess]
  · intro d a f t rc out err h1 h2 h3 h4; simp [installLoop, h1, h2, h3, h4, RunResult.isSuccess]
  · intro d a f t rc out err h1 h2 h3 h4 h5
    simp [installLoop, h1, h2, h3, h4, h5, RunResult.isSuccess]
  · intro d a f t rc out err h1 h2 h3 h4 h5 hP
    rw [hP, installLoop]
    simp only [h1]
    rw [if_neg h2, if_neg h3, if_neg h4, if_neg h5]

/-- DownloadedSet is insertion-only across the loop. -/
theorem subset_runLoop_downloaded (e : Env) (fuel : Nat) (d : Finset String) (a : Nat)
    (t : List (Finset String)) : d ⊆ (runLoop e d a fuel t).downloaded := by
  refine runLoop_ind e (fun d a fuel t r => d ⊆ r.downloaded)
    ?_ ?_ ?_ ?_ ?_ ?_ ?_ fuel d a t <;> intros <;> (try dsimp only) <;>
    first
      | exact Finset.Subset.refl _
      | exact Finset.subset_union_left
      | exact le_trans Finset.subset_union_left (by assumption)

/-- A name in the downloaded set after the loop was either there before
the loop or has a fetch that returns a path. -/
theorem runLoop_downloaded_mem (e : Env) (fuel : Nat) (d : Finset String) (a : Nat)
    (t : List (Finset String)) (n : String) (hn : n ∈ (runLoop e d a fuel t).downloaded) :
    n ∈ d ∨ (e.fetch n).isSome := by
  refine runLoop_ind e
    (fun d a fuel t r => ∀ n, n ∈ r.downloaded → n ∈ d ∨ (e.fetch n).isSome)
    ?_ ?_ ?_ ?_ ?_ ?_ ?_ fuel d a t n hn
  · intro d a t n h; exact Or.inl h
  · intro d a f t _ n h; exact Or.inl h
  · intro d a f t rc out err _ _ n h; exact Or.inl h
  · intro d a f t rc out err _ _ _ n h; exact Or.inl h
  · intro d a f t rc out err _ _ _ _ n h; exact Or.inl h
  · intro d a f t rc out err _ _ _ _ _ n h
    dsimp only at h
    rcases Finset.mem_union.mp h with h | h
    · exact Or.inl h
    · exact Or.inr (Finset.mem_filter.mp h).2
  · intro d a f t rc out err _ _ _ _ _ hP n h
    rcases hP n h with h | h
    · rcases Finset.mem_union.mp h with h | h
      · exact Or.inl h
      · exact Or.inr (Finset.mem_filter.mp h).2
    · exact Or.inr h

/-- A name with a successful fetch that lies in one of the
newly-identified sets recorded by the loop ends up in the downloaded
set (unless the set was already in the incoming trace accumulator). -/
theorem runLoop_retryFetched_mem (e : Env) (fuel : Nat) (d : Finset String) (a : Nat)
    (t : List (Finset String)) (s : Finset String) (n : String)
    (hs : s ∈ (runLoop e d a fuel t).retryFetched) (hn : n ∈ s)
    (hf : (e.fetch n).isSome) : s ∈ t ∨ n ∈ (runLoop e d a fuel t).downloaded := by
  refine runLoop_ind e
    (fun d a fuel t r => ∀ s n, s ∈ r.retryFetched → n ∈ s → (e.fetch n).isSome = true →
      s ∈ t ∨ n ∈ r.downloaded) ?_ ?_ ?_ ?_ ?_ ?_ ?_ fuel d a t s n hs hn hf
  · intro d a t s n hs _ _; exact Or.inl hs
  · intro d a f t _ s n hs _ _; exact Or.inl hs
  · intro d a f t rc out err _ _ s n hs _ _; exact Or.inl hs
  · intro d a f t rc out err _ _ _ s n hs _ _; exact Or.inl hs
  · intro d a f t rc out err _ _ _ _ s n hs _ _; exact Or.inl hs
  · intro d a f t rc out err _ _ _ _ h5 s n hs hn hf
    dsimp only at hs ⊢
    rcases List.mem_append.mp hs with hs | hs
    · exact Or.inl hs
    · have hseq : s = parse_pip_error_for_missing_deps err \ d := by simpa using hs
      exfalso
      have hmem : n ∈ fetchedOf e (parse_pip_error_for_missing_deps err \ d) :=
        Finset.mem_filter.mpr ⟨hseq ▸ hn, hf⟩
      have hempty := Finset.card_eq_zero.mp h5
      rw [hempty] at hmem
      simp at hmem
  · intro d a f t rc out err _ _ _ _ h5 hP s n hs hn hf
    rcases hP s n hs hn hf with hs' | hs'
    · rcases List.mem_append.mp hs' with hs' | hs'
      · exact Or.inl hs'
      · have hseq : s = parse_pip_error_for_missing_deps err \ d := by simpa using hs'
        refine Or.inr ?_
        have hmem : n ∈ fetchedOf e (parse_pip_error_for_missing_deps err \ d) :=
          Finset.mem_filter.mpr ⟨hseq ▸ hn, hf⟩
        exact subset_runLoop_downloaded e f _ (a + 1) _ (Finset.mem_union_right _ hmem)
    · exact Or.inr hs'

/-- Everything in the seeded set is the main name or successfully
fetched. -/
theorem mem_seededSet (e : Env) (p n : String) (h : n ∈ seededSet e p) :
    n = e.mainName ∨ (e.fetch n).isSome := by
  rcases Finset.mem_union.mp h with h | h
  · exact Or.inl (Finset.mem_singleton.mp h)
  · exact Or.inr (Finset.mem_filter.mp h).2.2

/-- splitlines of a chunk containing no line-boundary character,
relative to any accumulator, is the accumulator followed by the chunk. -/
theorem splitLinesAux_no_break (cs : List Char) :
    ∀ (acc : List Char), (∀ c ∈ cs, isLineBreak c = false) → (cs ≠ [] ∨ acc ≠ []) →
      splitLinesAux cs acc = [acc.reverse ++ cs] := by
  induction cs with
  | nil =>
    intro acc _ hne
    rcases hne with h | h
    · exact absurd rfl h
    · simp [splitLinesAux, h]
  | cons c cs ih =>
    intro acc hnb _
    have hc : isLineBreak c = false := hnb c (List.mem_cons_self c cs)
    cases cs with
    | nil =>
      rw [splitLinesAux, if_neg (by simp [hc])]
      simp
    | cons c2 cs2 =>
      have hcr : ¬c = '\x0d' := by
        intro h
        rw [h] at hc
        simp [isLineBreak] at hc
      rw [splitLinesAux, if_neg (by simp [hcr]), if_neg (by simp [hc]),
        ih (c :: acc) (fun d hd => hnb d (List.mem_cons_of_mem c hd)) (Or.inl (by simp))]
      simp

/-- A nonempty text containing no line-boundary character is a single
line. -/
theorem splitLines_no_break (cs : List Char) (hne : cs ≠ [])
    (hnb : ∀ c ∈ cs, isLineBreak c = false) : splitLines cs = [cs] := by
  rw [splitLines, splitLinesAux_no_break cs [] hnb (Or.inl hne)]
  simp

/-- The line loop of the failure parser leaves the accumulator unchanged
when no recognizer matches any line. -/
theorem foldl_parseLine_no_match (ls : List (List Char)) :
    ∀ (acc : Finset String),
      (∀ l ∈ ls, searchCapture phrase1 l = none ∧ searchCapture phrase2 l = none) →
      ls.foldl parseLine acc = acc := by
  induction ls with
  | nil => intro acc _; rfl
  | cons l ls ih =>
    intro acc h
    have hl := h l (List.mem_cons_self l ls)
    rw [List.foldl_cons, show parseLine acc l = acc by rw [parseLine, hl.1, hl.2]]
    exact ih acc (fun l' hl' => h l' (List.mem_cons_of_mem l hl'))

/-- C1, counterexample: in envFailedFetchRetry the fetch of b fails; the
claim says b is nonetheless added to DownloadedSet and never retried as a
new target, but the run selects b as a newly-identified target in both
the first and the second attempt and b is never in the downloaded set. -/
theorem failed_fetch_retried_counterexample :
    envFailedFetchRetry.fetch "b" = none ∧
    (run envFailedFetchRetry).retryFetched = [{"b", "c"}, {"b"}] ∧
    "b" ∉ (run envFailedFetchRetry).downloaded := by
  refine ⟨by decide, by decide, by decide⟩

/-- C1, amended: after a failed install attempt is parsed, the
orchestrator attempts to fetch every name in new = parsed minus
DownloadedSet but records only the names whose fetch succeeded: a name
whose fetch returned the absence signal is never in the downloaded set,
while every name of a recorded newly-identified set whose fetch succeeds
ends up in the downloaded set; a failed name may be selected again as a
new target in a later attempt. -/
theorem retry_adds_only_successful_fetches :
    (∀ (e : Env) (n : String), e.fetch n = none → n ∉ (run e).downloaded) ∧
    (∀ (e : Env) (s : Finset String) (n : String), s ∈ (run e).retryFetched → n ∈ s →
      (e.fetch n).isSome → n ∈ (run e).downloaded) := by
  constructor
  · intro e n hfetch hmem
    cases h : e.fetch e.mainName with
    | none => rw [run] at hmem; simp [h] at hmem
    | some p =>
      rw [run_eq_seeded e p h] at hmem
      rcases runLoop_downloaded_mem e _ _ _ _ n hmem with hm | hm
      · rcases mem_seededSet e p n hm with rfl | hm
        · rw [h] at hfetch; cases hfetch
        · rw [hfetch] at hm; simp at hm
      · rw [hfetch] at hm; simp at hm
  · intro e s n hs hn hf
    cases h : e.fetch e.mainName with
    | none => rw [run] at hs; simp [h] at hs
    | some p =>
      rw [run_eq_seeded e p h] at hs ⊢
      rcases runLoop_retryFetched_mem e _ _ _ _ s n hs hn hf with h' | h'
      · simp at h'
      · exact h'

/-- Witness for retry_adds_only_successful_fetches at
envFailedFetchRetry: b (failed fetch) is absent from the downloaded set,
c (successful fetch, member of the first newly-identified set) is
present. -/
theorem retry_adds_only_successful_fetches_witness :
    (envFailedFetchRetry.fetch "b" = none ∧ "b" ∉ (run envFailedFetchRetry).downloaded) ∧
    ({"b", "c"} ∈ (run envFailedFetchRetry).retryFetched ∧ "c" ∈ ({"b", "c"} : Finset String) ∧
      (envFailedFetchRetry.fetch "c").isSome ∧ "c" ∈ (run envFailedFetchRetry).downloaded) :=
  ⟨⟨by decide, retry_adds_only_successful_fetches.1 envFailedFetchRetry "b" (by decide)⟩,
    ⟨by decide, by decide, by decide,
      retry_adds_only_successful_fetches.2 envFailedFetchRetry {"b", "c"} "c"
        (by decide) (by decide) (by decide)⟩⟩

/-- C2, counterexample: the value returned to the external caller is the
boolean of install_packages_locally; two runs whose terminal branches are
the distinct failure reasons MainPackageUnavailable and Stalled return
identical values, so the returned value carries no reason tag. -/
theorem run_result_bool_counterexample :
    install_packages_locally envMainAbsent = install_packages_locally envSingleStalled ∧
    (run envMainAbsent).result = .failure .mainPackageUnavailable ∧
    (run envSingleStalled).result = .failure .stalled ∧
    FailReason.mainPackageUnavailable ≠ FailReason.stalled := by
  refine ⟨by decide, by decide, by decide, by decide⟩

/-- C2, amended: the value returned to the external caller distinguishes
success from failure and nothing more: it is exactly the success bit of
the instrumented outcome, whose terminal branch (one of the five spec
reasons, or the subprocess-raise branch the spec taxonomy does not name)
is not part of the returned value. -/
theorem run_result_refines_bool (e : Env) :
    install_packages_locally e = (run e).result.isSuccess := by
  cases h : e.fetch e.mainName with
  | none => simp [install_packages_locally, run, h, RunResult.isSuccess]
  | some p => rw [install_eq_seeded e p h, run_eq_seeded e p h, runLoop_isSuccess]

/-- C3: for any environment with positive max_retries the run terminates
(run is a total function of its fuel) and invokes the install capability
at most max_retries + 1 times. -/
theorem run_terminates_within_bound (e : Env) (_hpos : 0 < e.maxRetries) :
    (run e).installCalls ≤ e.maxRetries + 1 := by
  cases h : e.fetch e.mainName with
  | none => simp [run, h]
  | some p =>
    rw [run_eq_seeded e p h]
    have := runLoop_installCalls_le e e.maxRetries (seededSet e p) 0 []
    omega

/-- Witness for run_terminates_within_bound at envSingleStalled. -/
theorem run_terminates_within_bound_witness :
    0 < envSingleStalled.maxRetries ∧
    (run envSingleStalled).installCalls ≤ envSingleStalled.maxRetries + 1 :=
  ⟨by decide, run_terminates_within_bound envSingleStalled (by decide)⟩

/-- C4: a failed attempt whose parsed missing-name set is non-empty but
contains no name outside the downloaded set terminates the run at once
with the Stalled outcome; and with an install capability always failing
with the same single missing name, a fetch capability that always
succeeds and max_retries at least 2, the run ends Stalled within two
install invocations, not at max_retries. -/
theorem stalled_stops_before_max_attempts :
    (∀ (e : Env) (d : Finset String) (a f : Nat) (t : List (Finset String))
        (rc : Int) (out err : String),
      e.install (a + 1) = some (rc, out, err) → rc ≠ 0 →
      parse_pip_error_for_missing_deps err ≠ ∅ →
      parse_pip_error_for_missing_deps err \ d = ∅ →
      (runLoop e d a (f + 1) t).result = .failure .stalled) ∧
    (∀ (e : Env) (x : String),
      (∀ k : Nat, ∃ rc out err, e.install k = some (rc, out, err) ∧ rc ≠ 0 ∧
        parse_pip_error_for_missing_deps err = {x}) →
      (∀ n, (e.fetch n).isSome) → 2 ≤ e.maxRetries →
      (run e).result = .failure .stalled ∧ (run e).installCalls ≤ 2) := by
  have step_stall : ∀ (e : Env) (x : String) (d : Finset String) (a f : Nat)
      (t : List (Finset String)) (rc : Int) (out err : String),
      e.install (a + 1) = some (rc, out, err) → rc ≠ 0 →
      parse_pip_error_for_missing_deps err = {x} → x ∈ d →
      runLoop e d a (f + 1) t = ⟨.failure .stalled, a + 1, d, t⟩ := by
    intro e x d a f t rc out err hi hrc hparse hx
    rw [runLoop]
    simp only [hi]
    rw [if_neg hrc, if_neg (by rw [hparse]; exact Finset.singleton_ne_empty x),
      if_pos (by rw [hparse, Finset.sdiff_eq_empty_iff_subset, Finset.singleton_subset_iff]; exact hx)]
  have step_cont : ∀ (e : Env) (x : String) (d : Finset String) (a f : Nat)
      (t : List (Finset String)) (rc : Int) (out err : String),
      e.install (a + 1) = some (rc, out, err) → rc ≠ 0 →
      parse_pip_error_for_missing_deps err = {x} → x ∉ d → (e.fetch x).isSome →
      runLoop e d a (f + 1) t =
        runLoop e (d ∪ fetchedOf e (({x} : Finset String) \ d)) (a + 1) f
          (t ++ [({x} : Finset String) \ d]) := by
    intro e x d a f t rc out err hi hrc hparse hx hfx
    have hmem : x ∈ fetchedOf e (({x} : Finset String) \ d) :=
      Finset.mem_filter.mpr ⟨Finset.mem_sdiff.mpr ⟨Finset.mem_singleton_self x, hx⟩, hfx⟩
    rw [runLoop]
    simp only [hi, hparse]
    rw [if_neg hrc, if_neg (Finset.singleton_ne_empty x),
      if_neg (fun h => by rw [h] at hmem; simp [fetchedOf] at hmem),
      if_neg (Finset.card_ne_zero_of_mem hmem)]
  constructor
  · intro e d a f t rc out err hi hrc hne hdiff
    rw [runLoop]
    simp only [hi]
    rw [if_neg hrc, if_neg hne, if_pos hdiff]
  · intro e x hinst hfetch hmax
    obtain ⟨p, hp⟩ := Option.isSome_iff_exists.mp (hfetch e.mainName)
    rw [run_eq_seeded e p hp]
    obtain ⟨m, hm⟩ : ∃ m, e.maxRetries = m + 2 := ⟨e.maxRetries - 2, by omega⟩
    rw [hm]
    obtain ⟨rc1, out1, err1, hi1, hrc1, hparse1⟩ := hinst 1
    have hi1' : e.install (0 + 1) = some (rc1, out1, err1) := by simpa using hi1
    by_cases hx : x ∈ seededSet e p
    · rw [show m + 2 = (m + 1) + 1 from rfl,
        step_stall e x (seededSet e p) 0 (m + 1) [] rc1 out1 err1 hi1' hrc1 hparse1 hx]
      exact ⟨rfl, by dsimp only; omega⟩
    · obtain ⟨rc2, out2, err2, hi2, hrc2, hparse2⟩ := hinst 2
      have hi2' : e.install (1 + 1) = some (rc2, out2, err2) := by simpa using hi2
      have hx2 : x ∈ seededSet e p ∪ fetchedOf e (({x} : Finset String) \ seededSet e p) :=
        Finset.mem_union_right _
          (Finset.mem_filter.mpr
            ⟨Finset.mem_sdiff.mpr ⟨Finset.mem_singleton_self x, hx⟩, hfetch x⟩)
      rw [show m + 2 = (m + 1) + 1 from rfl,
        step_cont e x (seededSet e p) 0 (m + 1) [] rc1 out1 err1 hi1' hrc1 hparse1 hx (hfetch x),
        step_stall e x _ 1 m _ rc2 out2 err2 hi2' hrc2 hparse2 hx2]
      exact ⟨rfl, by dsimp only; omega⟩

/-- Witness for stalled_stops_before_max_attempts: part one at a state
whose downloaded set already holds the reported name, part two at
envRepeatSameMissing (max_retries 5, install always reporting x). -/
theorem stalled_stops_before_max_attempts_witness :
    ((runLoop envRepeatSameMissing {"a", "x"} 0 1 []).result = .failure .stalled) ∧
    ((run envRepeatSameMissing).result = .failure .stalled ∧
      (run envRepeatSameMissing).installCalls ≤ 2) :=
  ⟨stalled_stops_before_max_attempts.1 envRepeatSameMissing {"a", "x"} 0 0 [] 1 ""
      "No matching distribution found for x" (by decide) (by decide) (by decide) (by decide),
    stalled_stops_before_max_attempts.2 envRepeatSameMissing "x"
      (fun k => ⟨1, "", "No matching distribution found for x", rfl, by decide, by decide⟩)
      (fun n => rfl) (by decide)⟩

/-- C5: when the fetch of the main package reports absence the run fails
at once with MainPackageUnavailable, performing zero install
invocations. -/
theorem main_absent_immediate_failure (e : Env) (h : e.fetch e.mainName = none) :
    (run e).result = .failure .mainPackageUnavailable ∧ (run e).installCalls = 0 := by
  simp [run, h]

/-- Witness for main_absent_immediate_failure at envMainAbsent. -/
theorem main_absent_immediate_failure_witness :
    envMainAbsent.fetch envMainAbsent.mainName = none ∧
    (run envMainAbsent).result = .failure .mainPackageUnavailable ∧
    (run envMainAbsent).installCalls = 0 :=
  ⟨by decide, main_absent_immediate_failure envMainAbsent (by decide)⟩

/-- C6, counterexample: a single line containing both trigger phrases
yields only the name captured by the first recognizer; the claim that
both names are returned fails, since the loop's continue after a
pattern-1 match skips pattern 2 for that line. -/
theorem both_phrases_one_line_counterexample :
    parse_pip_error_for_missing_deps bothPhrasesLine = {"aaa"} ∧
    "bbb" ∉ parse_pip_error_for_missing_deps bothPhrasesLine := by
  refine ⟨by decide, by decide⟩

/-- C6, amended: the recognizers are applied in order with the first
match per line winning: on a single-line input (a nonempty text with no
line-boundary character of str.splitlines), a pattern-1 match makes the
returned set exactly its capture (pattern 2 is not consulted), and only
when pattern 1 does not match is pattern 2 applied, the returned set
then being exactly its capture. -/
theorem line_first_recognizer_wins :
    (∀ (l a : String), l.toList ≠ [] → (∀ c ∈ l.toList, isLineBreak c = false) →
      searchCapture phrase1 l.toList = some a →
      parse_pip_error_for_missing_deps l = {a}) ∧
    (∀ (l b : String), l.toList ≠ [] → (∀ c ∈ l.toList, isLineBreak c = false) →
      searchCapture phrase1 l.toList = none → searchCapture phrase2 l.toList = some b →
      parse_pip_error_for_missing_deps l = {b}) := by
  constructor
  · intro l a hne hnb h1
    rw [parse_pip_error_for_missing_deps, splitLines_no_break _ hne hnb]
    simp only [String.toList] at h1
    simp [parseLine, h1]
  · intro l b hne hnb h1 h2
    rw [parse_pip_error_for_missing_deps, splitLines_no_break _ hne hnb]
    simp only [String.toList] at h1 h2
    simp [parseLine, h1, h2]

/-- Witness for line_first_recognizer_wins on the two concrete lines. -/
theorem line_first_recognizer_wins_witness :
    ((∀ c ∈ bothPhrasesLine.toList, isLineBreak c = false) ∧
      searchCapture phrase1 bothPhrasesLine.toList = some "aaa" ∧
      parse_pip_error_for_missing_deps bothPhrasesLine = {"aaa"}) ∧
    ((∀ c ∈ requirementOnlyLine.toList, isLineBreak c = false) ∧
      searchCapture phrase1 requirementOnlyLine.toList = none ∧
      searchCapture phrase2 requirementOnlyLine.toList = some "zz" ∧
      parse_pip_error_for_missing_deps requirementOnlyLine = {"zz"}) :=
  ⟨⟨by decide, by decide,
      line_first_recognizer_wins.1 bothPhrasesLine "aaa" (by decide) (by decide) (by decide)⟩,
    ⟨by decide, by decide, by decide,
      line_first_recognizer_wins.2 requirementOnlyLine "zz"
        (by decide) (by decide) (by decide) (by decide)⟩⟩

/-- C7: the text ERROR: No matching distribution found for bar parses to
exactly the singleton bar, and any text none of whose lines is matched
by either recognizer parses to the empty set as an ordinary value. -/
theorem parse_precision :
    parse_pip_error_for_missing_deps "ERROR: No matching distribution found for bar" = {"bar"} ∧
    (∀ t : String, (∀ l ∈ splitLines t.toList,
        searchCapture phrase1 l = none ∧ searchCapture phrase2 l = none) →
      parse_pip_error_for_missing_deps t = ∅) := by
  refine ⟨by decide, ?_⟩
  intro t h
  rw [parse_pip_error_for_missing_deps, foldl_parseLine_no_match _ _ h]

/-- Witness for parse_precision at a text with no recognizable phrase. -/
theorem parse_precision_witness :
    (∀ l ∈ splitLines unrecognizableText.toList,
        searchCapture phrase1 l = none ∧ searchCapture phrase2 l = none) ∧
    parse_pip_error_for_missing_deps unrecognizableText = ∅ :=
  ⟨by decide, parse_precision.2 unrecognizableText (by decide)⟩

/-- C8: the archive whose METADATA read raises after one Requires-Dist
line was parsed.  The source catches the error, but returns the
partially accumulated set, here the non-empty singleton foo, where both
the claim and the function's own docstring promise the empty set. -/
theorem extract_error_returns_accumulated :
    whlPartialRead.members.map ZipMember.readFails = [true] ∧
    extract_dependencies_from_whl whlPartialRead = {"foo"} ∧
    extract_dependencies_from_whl whlPartialRead ≠ ∅ := by
  refine ⟨rfl, by decide, by decide⟩

/-- C9: metadata extraction is deterministic (the embedding is a pure
function of the archive data, so two applications to the same archive
coincide definitionally), and a Requires-Dist line with a version
qualifier contributes exactly the leading name token foo. -/
theorem extract_deterministic_and_discards_qualifier :
    (∀ w : WhlFile, extract_dependencies_from_whl w = extract_dependencies_from_whl w) ∧
    extract_dependencies_from_whl whlFooDep = {"foo"} :=
  ⟨fun _ => rfl, by decide⟩

/-- C10: at every point of a run, every name in the downloaded set is
the main package name or a name whose fetch returned a path: the
property is preserved by the loop from any state satisfying it, and
holds of the final set of every run. -/
theorem downloaded_only_main_or_fetched :
    (∀ (e : Env) (d : Finset String) (a fuel : Nat) (t : List (Finset String)) (n : String),
      (∀ m ∈ d, m = e.mainName ∨ (e.fetch m).isSome) →
      n ∈ (runLoop e d a fuel t).downloaded → n = e.mainName ∨ (e.fetch n).isSome) ∧
    (∀ (e : Env) (n : String),
      n ∈ (run e).downloaded → n = e.mainName ∨ (e.fetch n).isSome) := by
  constructor
  · intro e d a fuel t n hd hn
    rcases runLoop_downloaded_mem e fuel d a t n hn with h | h
    · exact hd n h
    · exact Or.inr h
  · intro e n hn
    cases h : e.fetch e.mainName with
    | none => rw [run] at hn; simp [h] at hn
    | some p =>
      rw [run_eq_seeded e p h] at hn
      rcases runLoop_downloaded_mem e _ _ _ _ n hn with hm | hm
      · exact mem_seededSet e p n hm
      · exact Or.inr hm

/-- Witness for downloaded_only_main_or_fetched at envFailedFetchRetry. -/
theorem downloaded_only_main_or_fetched_witness :
    ((∀ m ∈ ({"a"} : Finset String),
        m = envFailedFetchRetry.mainName ∨ (envFailedFetchRetry.fetch m).isSome) ∧
      "a" ∈ (runLoop envFailedFetchRetry {"a"} 0 0 []).downloaded ∧
      ("a" = envFailedFetchRetry.mainName ∨ (envFailedFetchRetry.fetch "a").isSome)) ∧
    ("c" ∈ (run envFailedFetchRetry).downloaded ∧
      ("c" = envFailedFetchRetry.mainName ∨ (envFailedFetchRetry.fetch "c").isSome)) :=
  ⟨⟨by decide, by decide,
      downloaded_only_main_or_fetched.1 envFailedFetchRetry {"a"} 0 0 [] "a"
        (by decide) (by decide)⟩,
    ⟨by decide, downloaded_only_main_or_fetched.2 envFailedFetchRetry "c" (by decide)⟩⟩

end Pipass
